import Mathlib

/-!
Verification of `model_validation/vivarium_output_processing.py`.

The module operates on pandas DataFrames holding simulation output: each
frame has categorical "identifier" columns and a numeric value column.
We embed such a frame as a `Table`: a list of identifier column names
together with a list of rows, where a row is a total assignment of
string labels to column names paired with a rational value.

Modeling conventions, fixed throughout:
* `value_cols` is specialized to its default, the single column
  `VALUE_COLUMN`; the value of a row is stored in the second component
  of the pair rather than behind the column name.
* Column labels are strings.  The helper `_ensure_iterable`, which
  normalizes single-label arguments to lists (and whose whitelist
  decides how tuples are treated), is embedded separately over a small
  universe of Python values; the table operations below take the
  already-normalized list of column names.
* pandas raises `ValueError` on `groupby` with an empty key list
  ("No group keys passed!"), on `ratio` broadcast overlap, on
  `value` with both `include` and `exclude`, and on `difference` with
  neither id; all of these are modeled by returning `none`.
* `pd.Index.difference` sorts its result alphabetically; we keep the
  original column order instead.  Group-key order only permutes rows
  and index levels, which none of the verified properties depend on;
  likewise `groupby(..., sort=True)` sorting of group keys and
  `observed=True` (relevant to Categorical dtype only) are not modeled.
* The mutable global `INDEX_COLUMNS` (settable via
  `set_global_index_columns`) is threaded as an explicit argument
  `idxCols`; the constant `INDEX_COLUMNS` below is its default value.
-/

namespace VivariumOutput

/-- Module-level constant `VALUE_COLUMN`, the string `value`. -/
def VALUE_COLUMN : String := "value"

/-- Module-level constant `DRAW_COLUMN`, the string `input_draw`. -/
def DRAW_COLUMN : String := "input_draw"

/-- Module-level constant `SCENARIO_COLUMN`, the string `scenario`. -/
def SCENARIO_COLUMN : String := "scenario"

/-- Module-level constant `MEASURE_COLUMN`, the string `measure`. -/
def MEASURE_COLUMN : String := "measure"

/-- Default value of the module-level global `INDEX_COLUMNS`. -/
def INDEX_COLUMNS : List String := [DRAW_COLUMN, SCENARIO_COLUMN]

/-- A row of a DataFrame: a total assignment of labels to column names.
Columns outside the column list of the table are irrelevant junk. -/
abbrev Row := String → String

/-- A DataFrame with identifier columns `idCols` and one value column
(`VALUE_COLUMN`), stored as the second component of each row pair. -/
structure Table where
  idCols : List String
  rows : List (Row × ℚ)

/-- Placeholder label returned when a key tuple is read outside its
column list. -/
def defaultCell : String := ""

/-- Label standing for pandas `NaN` in an identifier column (produced
when index alignment finds no partner for a key). -/
def missingLabel : String := "NaN"

/-- Column name inserted by `difference` when a minuend id is given. -/
def subtractedFromCol : String := "subtracted_from"

/-- Column name inserted by `difference` when only a subtrahend id is
given. -/
def subtractedValueCol : String := "subtracted_value"

/-- The key tuple of a row under the given key columns: the list of the
labels of the row at those columns, in order: the group key used by
`df.groupby(cols)`. -/
def keyOf (cols : List String) (r : Row) : List String := cols.map r

/-- Position of a column in a column list (first occurrence). -/
def colPos (c : String) : List String → Nat
  | [] => 0
  | x :: xs => if x = c then 0 else colPos c xs + 1

/-- Reconstruct a row assignment from a key tuple over the given key
columns (the row backing one group of a `groupby` result). -/
def rowFromKey (cols : List String) (k : List String) : Row :=
  fun c => if c ∈ cols then k.getD (colPos c cols) defaultCell else defaultCell

/-- Sum of the values of all rows in the list whose key tuple under
`cols` equals `k`: one aggregated cell of `groupby(cols)[value].sum()`. -/
def sumKey (cols k : List String) : List (Row × ℚ) → ℚ
  | [] => 0
  | p :: t => (if keyOf cols p.1 = k then p.2 else 0) + sumKey cols k t

/-- Aggregated value of a table at a key, `groupby`-style. -/
def groupSum (T : Table) (cols k : List String) : ℚ :=
  sumKey cols k T.rows

/-- The rows of `df.groupby(keyCols)[VALUE_COLUMN].sum()`: one row per
distinct key tuple, carrying the sum of the values of its group. -/
def groupedRows (T : Table) (keyCols : List String) : List (Row × ℚ) :=
  ((T.rows.map fun p => keyOf keyCols p.1).dedup).map
    fun k => (rowFromKey keyCols k, sumKey keyCols k T.rows)

/-- Embedding of `df.groupby(keyCols)[VALUE_COLUMN].sum()`.  pandas raises
`ValueError: No group keys passed!` when `keyCols` is empty; this is
modeled by `none`. -/
def groupbySum (T : Table) (keyCols : List String) : Option Table :=
  if keyCols = [] then none
  else some { idCols := keyCols, rows := groupedRows T keyCols }

/-- The key tuples realized by the rows of a table under its own
columns. -/
def tableKeys (T : Table) : List (List String) :=
  T.rows.map fun p => keyOf T.idCols p.1

/-- Full column list of a table as a DataFrame: identifier columns
followed by the value column. -/
def tableColumns (T : Table) : List String :=
  T.idCols ++ [VALUE_COLUMN]

/-- Restrict a row to a column list, blanking all other columns (used
when `set_index(...)[value_cols]` drops columns from a frame). -/
def restrictRow (cols : List String) (r : Row) : Row :=
  fun c => if c ∈ cols then r c else defaultCell

/-- Overwrite one column of a row (used for inserted constant columns
and for identifier levels that alignment fills with `NaN`). -/
def setCol (r : Row) (c v : String) : Row :=
  fun x => if x = c then v else r x

/-- Embedding of `value(df, include, exclude, value_cols=VALUE_COLUMN)`
(source lines 80-103).  Sets the index so that the only remaining data
column is the value column:
* both `include` and `exclude` given: `ValueError` (modeled `none`);
* `include is None`: index is all columns except the value column and
  the excluded ones (`df.columns.difference([*value_cols, *exclude])`);
* otherwise: index is `[*include, *INDEX_COLUMNS]` (here `idxCols`).
Columns landing neither in the index nor in `value_cols` are dropped by
the final `df.set_index(index_cols)[value_cols]` selection. -/
def value (df : Table) (include_ exclude : Option (List String))
    (idxCols : List String) : Option Table :=
  match include_, exclude with
  | some _, some _ => none
  | none, _ =>
    let excl := exclude.getD []
    let index_cols := df.idCols.filter fun c => ¬ c ∈ excl
    some { idCols := index_cols,
           rows := df.rows.map fun p => (restrictRow index_cols p.1, p.2) }
  | some inc, none =>
    let index_cols := inc ++ idxCols
    some { idCols := index_cols,
           rows := df.rows.map fun p => (restrictRow index_cols p.1, p.2) }

/-- Embedding of `marginalize(df, marginalized_cols, value_cols)`
(source lines 105-148): group by every remaining identifier column
(`df.columns.difference([*marginalized_cols, *value_cols])`) and sum
the value column.  `_ensure_columns_not_levels` is the identity here
since `Table` always keeps its columns flat. -/
def marginalize (df : Table) (marginalized_cols : List String) : Option Table :=
  groupbySum df (df.idCols.filter fun c => ¬ c ∈ marginalized_cols)

/-- Embedding of `stratify(df, strata, value_cols)` (source lines
150-198): group by `[*strata, *INDEX_COLUMNS]` (here `idxCols`) and sum
the value column. -/
def stratify (df : Table) (strata idxCols : List String) : Option Table :=
  groupbySum df (strata ++ idxCols)

/-- Elementwise `numerator / denominator` of two grouped frames, pandas
index alignment style: each numerator row is divided by the denominator
cell whose key matches the projection of the row onto the index levels
of the denominator (the alignment/broadcast used when the numerator
carries the levels of the denominator, the case exercised below).  Cells
where pandas produces `NaN`/`inf` because the denominator key is empty
(sum `0`) follow the ℚ convention `x / 0 = 0` instead; no verified
property reads such a cell. -/
def divideTables (n d : Table) : Table :=
  { idCols := n.idCols,
    rows := n.rows.map fun p =>
      (p.1, p.2 / groupSum d d.idCols (keyOf d.idCols p.1)) }

/-- Multiplication of the value column by a scalar. -/
def scaleValues (m : ℚ) (T : Table) : Table :=
  { idCols := T.idCols, rows := T.rows.map fun p => (p.1, p.2 * m) }

/-- Embedding of `ratio(numerator, denominator, strata, ...)` (source
lines 200-329): after checking that the broadcast column lists are
disjoint (`ValueError`, modeled `none`, otherwise), stratify each side
by `strata` plus its own broadcast columns, divide elementwise, and
scale by `multiplier`.  `dropna=False` is the (default) modeled case;
`record_inputs` only inserts constant provenance columns
(`numerator_measure`, `denominator_measure`, `multiplier`) that no
verified property reads, and is not modeled. -/
def ratio (numerator denominator : Table) (strata : List String)
    (multiplier : ℚ) (numerator_broadcast denominator_broadcast : List String)
    (idxCols : List String) : Option Table :=
  if numerator_broadcast.any fun c => c ∈ denominator_broadcast then none
  else
    match stratify numerator (strata ++ numerator_broadcast) idxCols,
        stratify denominator (strata ++ denominator_broadcast) idxCols with
    | some n, some d => some (scaleValues multiplier (divideTables n d))
    | _, _ => none

/-- Value of the first row in the list whose key tuple under `cols` is
`k`, if any: the partner a key finds under pandas index alignment.
Source frames are assumed uniquely keyed, per the module docstring
assumption that rows are uniquely identified; theorems needing
uniqueness take it as a hypothesis. -/
def lookupVal (l : List (Row × ℚ)) (cols k : List String) : Option ℚ :=
  (l.find? fun p => keyOf cols p.1 = k).map Prod.snd

/-- Core of `difference`: subtract two uniquely-keyed row lists with
pandas alignment.  `bSide` is the side whose index got the identifier
column appended (the broadcast side); the result, an outer join on the
shared levels `idxc`, has
* one row per `bSide` row, with value `comb v b` where `v` is the
  `oSide` partner at the same `idxc` key (`none`, i.e. `NaN`, when
  there is no partner), and
* one row per `oSide` row whose key has no partner in `bSide`, with the
  identifier level filled with `NaN` and value `NaN` (`none`).
`comb` orients the subtraction (minuend minus subtrahend); `annot` is
the inserted constant provenance column. -/
def diffCore (bSide oSide : List (Row × ℚ)) (idxc : List String)
    (col annot annotVal : String) (comb : ℚ → ℚ → ℚ) : List (Row × Option ℚ) :=
  (bSide.map fun p =>
    (setCol p.1 annot annotVal,
     (lookupVal oSide idxc (keyOf idxc p.1)).map fun v => comb v p.2))
  ++ ((oSide.filter fun q => (lookupVal bSide idxc (keyOf idxc q.1)).isNone).map
    fun q => (setCol (setCol q.1 col missingLabel) annot annotVal, none))

/-- The columns `difference` aligns on:
`sorted(set(measure.columns) - set([identifier_col, VALUE_COLUMN]),
key=measure.columns.get_loc)`, i.e. all identifier columns except
`identifier_col`, in original column order. -/
def indexColsOf (measure : Table) (identifier_col : String) : List String :=
  measure.idCols.filter fun c => ¬ c = identifier_col

/-- Result rows of `difference` carry `NaN`-able values (`Option ℚ`),
since subtraction partners can be missing after alignment. -/
structure DiffTable where
  idCols : List String
  rows : List (Row × Option ℚ)

/-- Embedding of `difference(measure, identifier_col, minuend_id,
subtrahend_id)` (source lines 331-376).  Selects minuend/subtrahend rows by their value
in `identifier_col` (an unspecified side defaults to all rows with a
differing value), aligns on the remaining identifier columns — with the
identifier column appended to the index of the broadcast side —
subtracts,
and inserts a constant column recording the fixed id.  Raises
(`none`) when neither id is given. -/
def difference (measure : Table) (identifier_col : String)
    (minuend_id subtrahend_id : Option String) : Option DiffTable :=
  let idxc := indexColsOf measure identifier_col
  match minuend_id, subtrahend_id with
  | none, none => none
  | some a, some b =>
    let minuend := measure.rows.filter fun p => p.1 identifier_col = a
    let subtrahend := measure.rows.filter fun p => p.1 identifier_col = b
    some { idCols := idxc ++ [identifier_col, subtractedFromCol],
           rows := diffCore subtrahend minuend idxc identifier_col
             subtractedFromCol a (fun v s => v - s) }
  | some a, none =>
    let minuend := measure.rows.filter fun p => p.1 identifier_col = a
    let subtrahend := measure.rows.filter fun p => ¬ p.1 identifier_col = a
    some { idCols := idxc ++ [identifier_col, subtractedFromCol],
           rows := diffCore subtrahend minuend idxc identifier_col
             subtractedFromCol a (fun v s => v - s) }
  | none, some b =>
    let subtrahend := measure.rows.filter fun p => p.1 identifier_col = b
    let minuend := measure.rows.filter fun p => ¬ p.1 identifier_col = b
    some { idCols := idxc ++ [identifier_col, subtractedValueCol],
           rows := diffCore minuend subtrahend idxc identifier_col
             subtractedValueCol b (fun v m => m - v) }

/-- Embedding of `averted(measure, baseline_scenario, scenario_col)`
(source lines 378-409): `difference` with the minuend fixed to the baseline
scenario and the scenario column defaulting to `SCENARIO_COLUMN`. -/
def averted (measure : Table) (baseline_scenario : String)
    (scenario_col : Option String) : Option DiffTable :=
  difference measure (scenario_col.getD SCENARIO_COLUMN)
    (some baseline_scenario) none

/-- A non-container column label: a string or a tuple (Python tuples
can label pandas columns). -/
inductive ColLabel where
  | str (s : String)
  | tup (ts : List String)
deriving DecidableEq, Repr

/-- The universe of Python values passed as a `colnames` argument:
a string, a tuple, a `list`, or a `pd.Index`. -/
inductive PyColnames where
  | pystr (s : String)
  | pytuple (ts : List String)
  | pylist (ls : List ColLabel)
  | pyindex (ls : List ColLabel)
deriving DecidableEq, Repr

/-- Embedding of `method1` inside `_ensure_iterable` (lines 29-36), the
active normalization strategy: anything whose type is not in the
whitelist `(list, pd.Index)` — including a tuple — is wrapped as a
singleton; `list` and `pd.Index` arguments are returned unaltered. -/
def method1 : PyColnames → List ColLabel
  | .pystr s => [.str s]
  | .pytuple ts => [.tup ts]
  | .pylist ls => ls
  | .pyindex ls => ls

/-- Embedding of `_ensure_iterable(colnames, df, default)` (lines 23-71):
replace `None` by `default`, then apply `method1`.  The degenerate
Python call with `default=None` and `colnames=None` (which would
produce `[None]`) is outside the modeled universe; all claims concern
non-`None` arguments. -/
def ensure_iterable (colnames : Option PyColnames) (default : PyColnames) :
    List ColLabel :=
  method1 (colnames.getD default)

/-! ### Sample data used to instantiate the theorems -/

/-- Build a row from an association list of column/label pairs. -/
def rowOf (l : List (String × String)) : Row :=
  fun c => ((l.find? fun p => p.1 = c).map Prod.snd).getD defaultCell

/-- Label for a baseline scenario. -/
def baselineLabel : String := "baseline"

/-- Label for an intervention scenario. -/
def interventionLabel : String := "intervention"

/-- A draw label. -/
def drawZero : String := "0"

/-- An extra identifier column used by sample tables. -/
def causeCol : String := "cause"

/-- A cause label. -/
def measlesLabel : String := "measles"

/-- Another cause label. -/
def lriLabel : String := "lri"

/-- Sample frame with the two default index columns and two scenarios. -/
def baseTable : Table :=
  { idCols := [DRAW_COLUMN, SCENARIO_COLUMN],
    rows :=
      [(rowOf [(DRAW_COLUMN, drawZero), (SCENARIO_COLUMN, baselineLabel)], 5),
       (rowOf [(DRAW_COLUMN, drawZero), (SCENARIO_COLUMN, interventionLabel)],
        3)] }

/-- Sample frame containing only the baseline scenario. -/
def baseOnlyTable : Table :=
  { idCols := [DRAW_COLUMN, SCENARIO_COLUMN],
    rows :=
      [(rowOf [(DRAW_COLUMN, drawZero), (SCENARIO_COLUMN, baselineLabel)],
        5)] }

/-- Sample frame with an extra `cause` identifier column. -/
def sampleTable : Table :=
  { idCols := [causeCol, DRAW_COLUMN, SCENARIO_COLUMN],
    rows :=
      [(rowOf [(causeCol, measlesLabel), (DRAW_COLUMN, drawZero),
          (SCENARIO_COLUMN, baselineLabel)], 5),
       (rowOf [(causeCol, lriLabel), (DRAW_COLUMN, drawZero),
          (SCENARIO_COLUMN, baselineLabel)], 3)] }

/-! ### Lemmas about keys and grouped sums -/

theorem map_eq_on {α β : Type} (l : List α) (f g : α → β)
    (h : ∀ a ∈ l, f a = g a) : l.map f = l.map g := by
  induction l with
  | nil => rfl
  | cons a t ih =>
    simp only [List.map_cons]
    rw [h a (List.mem_cons_self a t),
      ih (fun x hx => h x (List.mem_cons_of_mem a hx))]

theorem getD_map_colPos (r : Row) :
    ∀ (cols : List String) (c : String), c ∈ cols →
      (cols.map r).getD (colPos c cols) defaultCell = r c := by
  intro cols
  induction cols with
  | nil => intro c hc; cases hc
  | cons x xs ih =>
    intro c hc
    by_cases hx : x = c
    · subst hx; simp [colPos]
    · have hc' : c ∈ xs := by
        rcases List.mem_cons.mp hc with h | h
        · exact absurd h.symm hx
        · exact h
      have hpos : colPos c (x :: xs) = colPos c xs + 1 := by
        simp [colPos, hx]
      rw [hpos, List.map_cons, List.getD_cons_succ]
      exact ih c hc'

theorem rowFromKey_keyOf (A : List String) (r : Row) (c : String)
    (hc : c ∈ A) : rowFromKey A (keyOf A r) c = r c := by
  unfold rowFromKey
  rw [if_pos hc]
  exact getD_map_colPos r A c hc

theorem keyOf_eq_on (B : List String) (f g : Row)
    (h : ∀ c ∈ B, f c = g c) : keyOf B f = keyOf B g :=
  map_eq_on B f g h

theorem keyOf_rowFromKey (A B : List String) (r : Row)
    (hBA : ∀ c ∈ B, c ∈ A) :
    keyOf B (rowFromKey A (keyOf A r)) = keyOf B r :=
  keyOf_eq_on B _ r fun c hc => rowFromKey_keyOf A r c (hBA c hc)

theorem sum_map_add {κ : Type} (K : List κ) (f g : κ → ℚ) :
    (K.map fun x => f x + g x).sum = (K.map f).sum + (K.map g).sum := by
  induction K with
  | nil => simp
  | cons a t ih => simp only [List.map_cons, List.sum_cons, ih]; ring

theorem sum_map_zero_of_not_mem {κ : Type} [DecidableEq κ] (K : List κ)
    (a : κ) (w : κ → ℚ) (ha : a ∉ K) :
    (K.map fun x => if x = a then w x else 0).sum = 0 := by
  induction K with
  | nil => simp
  | cons b t ih =>
    have hb : ¬ b = a := fun h => ha (h ▸ List.mem_cons_self b t)
    have ht : a ∉ t := fun h => ha (List.mem_cons_of_mem b h)
    simp [hb, ih ht]

theorem sum_map_single {κ : Type} [DecidableEq κ] (K : List κ)
    (hK : K.Nodup) (a : κ) (ha : a ∈ K) (w : κ → ℚ) :
    (K.map fun x => if x = a then w x else 0).sum = w a := by
  induction K with
  | nil => cases ha
  | cons b t ih =>
    rcases List.nodup_cons.mp hK with ⟨hbt, ht⟩
    rcases List.mem_cons.mp ha with h | h
    · subst h
      simp [sum_map_zero_of_not_mem t a w hbt]
    · have hb : ¬ b = a := fun hba => hbt (hba ▸ h)
      simp [hb, ih ht h]

theorem sum_fiber (A B k : List String) (hBA : ∀ c ∈ B, c ∈ A) :
    ∀ (l : List (Row × ℚ)) (K : List (List String)), K.Nodup →
      (∀ p ∈ l, keyOf A p.1 ∈ K) →
      (K.map fun ka =>
          if keyOf B (rowFromKey A ka) = k then sumKey A ka l else 0).sum
        = sumKey B k l := by
  intro l
  induction l with
  | nil =>
    intro K _ _
    simp [sumKey]
  | cons p t ih =>
    intro K hK hcov
    have hcov' : ∀ q ∈ t, keyOf A q.1 ∈ K := fun q hq =>
      hcov q (List.mem_cons_of_mem p hq)
    have hsplit : ∀ ka ∈ K,
        (if keyOf B (rowFromKey A ka) = k then sumKey A ka (p :: t) else 0)
          = (if ka = keyOf A p.1 then
              (if keyOf B (rowFromKey A ka) = k then p.2 else 0) else 0)
            + (if keyOf B (rowFromKey A ka) = k then sumKey A ka t else 0) := by
      intro ka _
      by_cases h2 : ka = keyOf A p.1
      · subst h2
        by_cases h1 : keyOf B (rowFromKey A (keyOf A p.1)) = k
        · simp [sumKey, h1]
        · simp [sumKey, h1]
      · have h2' : ¬ keyOf A p.1 = ka := fun hh => h2 hh.symm
        by_cases h1 : keyOf B (rowFromKey A ka) = k
        · simp [sumKey, h1, h2, h2']
        · simp [sumKey, h1]
    rw [map_eq_on K _ _ hsplit, sum_map_add,
      sum_map_single K hK (keyOf A p.1) (hcov p (List.mem_cons_self p t)) _,
      ih K hK hcov', keyOf_rowFromKey A B p.1 hBA]
    simp [sumKey]

theorem sumKey_groupedRows (T : Table) (A B k : List String)
    (hBA : ∀ c ∈ B, c ∈ A) :
    sumKey B k (groupedRows T A) = sumKey B k T.rows := by
  have h1 : ∀ K : List (List String),
      sumKey B k (K.map fun ka => (rowFromKey A ka, sumKey A ka T.rows))
        = (K.map fun ka =>
            if keyOf B (rowFromKey A ka) = k then sumKey A ka T.rows
            else 0).sum := by
    intro K
    induction K with
    | nil => simp [sumKey]
    | cons ka t ih => simp [sumKey, ih]
  unfold groupedRows
  rw [h1]
  exact sum_fiber A B k hBA T.rows _ (List.nodup_dedup _)
    fun p hp => List.mem_dedup.mpr (List.mem_map.mpr ⟨p, hp, rfl⟩)

theorem sumKey_all (l : List (Row × ℚ)) :
    sumKey [] [] l = (l.map Prod.snd).sum := by
  induction l with
  | nil => simp [sumKey]
  | cons p t ih => simp [sumKey, keyOf, ih]

theorem mem_keys_groupedRows (T : Table) (A B : List String)
    (hBA : ∀ c ∈ B, c ∈ A) (k : List String) :
    (k ∈ (groupedRows T A).map fun p => keyOf B p.1)
      ↔ ∃ p ∈ T.rows, keyOf B p.1 = k := by
  unfold groupedRows
  rw [List.map_map]
  constructor
  · intro h
    rcases List.mem_map.mp h with ⟨ka, hka, hk⟩
    rcases List.mem_map.mp (List.mem_dedup.mp hka) with ⟨p, hp, hpk⟩
    refine ⟨p, hp, ?_⟩
    have hpk' : keyOf A p.1 = ka := hpk
    calc keyOf B p.1
        = keyOf B (rowFromKey A (keyOf A p.1)) :=
          (keyOf_rowFromKey A B p.1 hBA).symm
      _ = k := by rw [hpk']; exact hk
  · rintro ⟨p, hp, hk⟩
    apply List.mem_map.mpr
    refine ⟨keyOf A p.1,
      List.mem_dedup.mpr (List.mem_map.mpr ⟨p, hp, rfl⟩), ?_⟩
    simpa using (keyOf_rowFromKey A B p.1 hBA).trans hk

theorem grouped_grouped_sum (df : Table) (A B k : List String)
    (hBA : ∀ c ∈ B, c ∈ A) :
    sumKey B k (groupedRows { idCols := A, rows := groupedRows df A } B)
      = sumKey B k (groupedRows df B) := by
  have e1 : sumKey B k (groupedRows { idCols := A, rows := groupedRows df A } B)
      = sumKey B k (groupedRows df A) :=
    sumKey_groupedRows { idCols := A, rows := groupedRows df A } B B k
      fun c hc => hc
  rw [e1, sumKey_groupedRows df A B k hBA,
    ← sumKey_groupedRows df B B k fun c hc => hc]

theorem grouped_grouped_keys (df : Table) (A B : List String)
    (hBA : ∀ c ∈ B, c ∈ A) (k : List String) :
    (k ∈ (groupedRows { idCols := A, rows := groupedRows df A } B).map
        fun p => keyOf B p.1)
      ↔ k ∈ (groupedRows df B).map fun p => keyOf B p.1 := by
  rw [mem_keys_groupedRows { idCols := A, rows := groupedRows df A } B B
      (fun c hc => hc) k,
    mem_keys_groupedRows df B B (fun c hc => hc) k]
  constructor
  · rintro ⟨p, hp, hk⟩
    exact (mem_keys_groupedRows df A B hBA k).mp
      (List.mem_map.mpr ⟨p, hp, hk⟩)
  · rintro ⟨p, hp, hk⟩
    obtain ⟨q, hq, hk2⟩ := List.mem_map.mp
      ((mem_keys_groupedRows df A B hBA k).mpr ⟨p, hp, hk⟩)
    exact ⟨q, hq, hk2⟩

theorem keyOf_setCol (C : List String) (r : Row) (c v : String)
    (hc : ¬ c ∈ C) : keyOf C (setCol r c v) = keyOf C r :=
  keyOf_eq_on C _ _ fun x hx => by
    unfold setCol
    rw [if_neg fun h : x = c => hc (h ▸ hx)]

theorem lookupVal_of_mem (l : List (Row × ℚ)) (C : List String)
    (hinj : ∀ p ∈ l, ∀ q ∈ l, keyOf C p.1 = keyOf C q.1 → p = q)
    (q : Row × ℚ) (hq : q ∈ l) :
    lookupVal l C (keyOf C q.1) = some q.2 := by
  unfold lookupVal
  cases hfind : l.find? fun p => keyOf C p.1 = keyOf C q.1 with
  | none =>
    exfalso
    have h := List.find?_eq_none.mp hfind q hq
    simp at h
  | some r0 =>
    have hmem := List.mem_of_find?_eq_some hfind
    have hpred := List.find?_some hfind
    simp only [decide_eq_true_eq] at hpred
    rw [hinj r0 hmem q hq hpred]
    rfl

/-! ### Claims -/

/-- C1: with `multiplier = 1` and the same table as both numerator and
denominator, `ratio` succeeds and returns a table whose value column is
`1` in every row whose stratified denominator value is nonzero. -/
theorem ratio_self_is_one (t : Table) (strata idxCols : List String)
    (hne : ¬ strata ++ idxCols = []) :
    ( ratio t t strata 1 [] [] idxCols).isSome ∧
    ∀ res ∈ ratio t t strata 1 [] [] idxCols, ∀ p ∈ res.rows,
      ¬ groupSum t (strata ++ idxCols) (keyOf (strata ++ idxCols) p.1) = 0 →
      p.2 = 1 := by
  have hne' : ¬ (strata = [] ∧ idxCols = []) := by simpa using hne
  have hratio : ratio t t strata 1 [] [] idxCols
      = some (scaleValues 1 (divideTables
          { idCols := strata ++ idxCols,
            rows := groupedRows t (strata ++ idxCols) }
          { idCols := strata ++ idxCols,
            rows := groupedRows t (strata ++ idxCols) })) := by
    simp [ratio, stratify, groupbySum, hne']
  refine ⟨by simp [hratio], ?_⟩
  intro res hres p hp hnz
  rw [hratio] at hres
  obtain rfl := Option.mem_some_iff.mp hres
  simp only [scaleValues, divideTables] at hp
  obtain ⟨p1, hp1, rfl⟩ := List.mem_map.mp hp
  obtain ⟨q, hq, rfl⟩ := List.mem_map.mp hp1
  rw [groupedRows] at hq
  obtain ⟨ka, hka, rfl⟩ := List.mem_map.mp hq
  obtain ⟨p0, hp0, hka0⟩ := List.mem_map.mp (List.mem_dedup.mp hka)
  have hkey : keyOf (strata ++ idxCols)
      (rowFromKey (strata ++ idxCols) ka) = ka := by
    rw [← hka0]
    exact keyOf_rowFromKey _ _ p0.1 fun c hc => hc
  simp only [groupSum] at hnz ⊢
  rw [hkey] at hnz
  have hden : sumKey (strata ++ idxCols) ka
      (groupedRows t (strata ++ idxCols)) =
      sumKey (strata ++ idxCols) ka t.rows :=
    sumKey_groupedRows t _ _ ka fun c hc => hc
  rw [hkey, hden]
  rw [div_self hnz]
  norm_num

/-- C1 witness: the specification instantiated at a concrete frame. -/
theorem ratio_self_is_one_witness :
    (¬ ([] : List String) ++ INDEX_COLUMNS = []) ∧
    (( ratio baseTable baseTable [] 1 [] [] INDEX_COLUMNS).isSome ∧
      ∀ res ∈ ratio baseTable baseTable [] 1 [] [] INDEX_COLUMNS,
        ∀ p ∈ res.rows,
          ¬ groupSum baseTable (([] : List String) ++ INDEX_COLUMNS)
              (keyOf (([] : List String) ++ INDEX_COLUMNS) p.1) = 0 →
          p.2 = 1) :=
  ⟨by decide, ratio_self_is_one baseTable [] INDEX_COLUMNS (by decide)⟩

/-- C2: marginalizing a column set `M` and then stratifying by strata
disjoint from `M` (drawn from the identifier columns of the table) gives
the same totals — aggregated values and realized keys — as directly
stratifying the original table. -/
theorem marginalize_stratify_complement (df : Table)
    (M strata idxCols : List String)
    (hsub : ∀ c ∈ strata ++ idxCols, c ∈ df.idCols ∧ ¬ c ∈ M)
    (hne : ¬ strata ++ idxCols = []) :
    ∃ dm r1 r2, marginalize df M = some dm ∧
      stratify dm strata idxCols = some r1 ∧
      stratify df strata idxCols = some r2 ∧
      (∀ k, groupSum r1 (strata ++ idxCols) k
        = groupSum r2 (strata ++ idxCols) k) ∧
      (∀ k, k ∈ tableKeys r1 ↔ k ∈ tableKeys r2) := by
  have hBA : ∀ c ∈ strata ++ idxCols,
      c ∈ df.idCols.filter fun c => ¬ c ∈ M := by
    intro c hc
    rcases hsub c hc with ⟨h1, h2⟩
    exact List.mem_filter.mpr ⟨h1, by simp [h2]⟩
  have hAne : ¬ (df.idCols.filter fun c => ¬ c ∈ M) = [] := by
    obtain ⟨c, hc⟩ := List.exists_mem_of_ne_nil _ hne
    exact List.ne_nil_of_mem (hBA c hc)
  refine ⟨{ idCols := df.idCols.filter fun c => ¬ c ∈ M,
            rows := groupedRows df (df.idCols.filter fun c => ¬ c ∈ M) },
    { idCols := strata ++ idxCols,
      rows := groupedRows
        { idCols := df.idCols.filter fun c => ¬ c ∈ M,
          rows := groupedRows df (df.idCols.filter fun c => ¬ c ∈ M) }
        (strata ++ idxCols) },
    { idCols := strata ++ idxCols,
      rows := groupedRows df (strata ++ idxCols) },
    ?_, ?_, ?_, ?_, ?_⟩
  · simp [marginalize, groupbySum, hAne]
    obtain ⟨c, hc⟩ := List.exists_mem_of_ne_nil _ hne
    rcases hsub c hc with ⟨h1, h2⟩
    exact ⟨c, h1, h2⟩
  · simp [stratify, groupbySum, hne]
  · simp [stratify, groupbySum, hne]
  · intro k
    exact grouped_grouped_sum df _ _ k hBA
  · intro k
    exact grouped_grouped_keys df _ _ hBA k

/-- C2 witness: the specification instantiated at a concrete frame,
marginalizing the cause column and stratifying by the index columns. -/
theorem marginalize_stratify_complement_witness :
    (∀ c ∈ ([] : List String) ++ INDEX_COLUMNS,
      c ∈ sampleTable.idCols ∧ ¬ c ∈ [causeCol]) ∧
    (¬ ([] : List String) ++ INDEX_COLUMNS = []) ∧
    (∃ dm r1 r2, marginalize sampleTable [causeCol] = some dm ∧
      stratify dm [] INDEX_COLUMNS = some r1 ∧
      stratify sampleTable [] INDEX_COLUMNS = some r2 ∧
      (∀ k, groupSum r1 (([] : List String) ++ INDEX_COLUMNS) k
        = groupSum r2 (([] : List String) ++ INDEX_COLUMNS) k) ∧
      (∀ k, k ∈ tableKeys r1 ↔ k ∈ tableKeys r2)) :=
  ⟨by decide, by decide,
    marginalize_stratify_complement sampleTable [causeCol] [] INDEX_COLUMNS
      (by decide) (by decide)⟩

/-- C3 counterexample: summing out every identifier column leaves the
`groupby` key list empty, so the final `marginalize` raises
(`ValueError: No group keys passed!`, modeled `none`) instead of
returning the grand total — both step by step and in one call. -/
theorem marginalize_all_columns_raises :
    (marginalize baseTable [DRAW_COLUMN]).bind
        (fun t1 => marginalize t1 [SCENARIO_COLUMN]) = none ∧
    marginalize baseTable [DRAW_COLUMN, SCENARIO_COLUMN] = none := by
  exact ⟨rfl, rfl⟩

/-- C3 amended: each `marginalize` preserves the grand total, so
marginalizing any column set that leaves at least one identifier column
yields a table whose value column sums to the grand total of the
original; marginalizing every identifier column instead raises. -/
theorem marginalize_preserves_grand_total (df : Table) (M : List String)
    (hne : ¬ (df.idCols.filter fun c => ¬ c ∈ M) = []) :
    ∀ dm ∈ marginalize df M,
      (dm.rows.map Prod.snd).sum = (df.rows.map Prod.snd).sum := by
  intro dm hdm
  have heq : marginalize df M
      = some { idCols := df.idCols.filter fun c => ¬ c ∈ M,
               rows := groupedRows df (df.idCols.filter fun c => ¬ c ∈ M) } := by
    simp [marginalize, groupbySum, hne]
    obtain ⟨c, hc⟩ := List.exists_mem_of_ne_nil _ hne
    have hcm := List.mem_filter.mp hc
    exact ⟨c, hcm.1, by simpa using hcm.2⟩
  rw [heq] at hdm
  obtain rfl := Option.mem_some_iff.mp hdm
  show ((groupedRows df (df.idCols.filter fun c => ¬ c ∈ M)).map
      Prod.snd).sum = (df.rows.map Prod.snd).sum
  calc ((groupedRows df (df.idCols.filter fun c => ¬ c ∈ M)).map
          Prod.snd).sum
      = sumKey [] [] (groupedRows df
          (df.idCols.filter fun c => ¬ c ∈ M)) := (sumKey_all _).symm
    _ = sumKey [] [] df.rows :=
        sumKey_groupedRows df _ [] [] fun c hc => absurd hc
          (List.not_mem_nil c)
    _ = (df.rows.map Prod.snd).sum := sumKey_all _

/-- C3 amended witness: the preserved-total property instantiated at a
concrete frame, marginalizing the cause column. -/
theorem marginalize_preserves_grand_total_witness :
    (¬ (sampleTable.idCols.filter fun c => ¬ c ∈ [causeCol]) = []) ∧
    (∀ dm ∈ marginalize sampleTable [causeCol],
      (dm.rows.map Prod.snd).sum = (sampleTable.rows.map Prod.snd).sum) :=
  ⟨by decide,
    marginalize_preserves_grand_total sampleTable [causeCol] (by decide)⟩

/-- C10: `_ensure_iterable` (via the active `method1`) treats any
non-`None` argument that is not a `list` or `pd.Index` — including a
tuple — as a single column name wrapped in a singleton list; only
`list` and `pd.Index` arguments are returned unaltered as collections
of several column names. -/
theorem ensure_iterable_method1_spec (d : PyColnames) :
    (∀ s, ensure_iterable (some (PyColnames.pystr s)) d = [ColLabel.str s]) ∧
    (∀ ts, ensure_iterable (some (PyColnames.pytuple ts)) d
      = [ColLabel.tup ts]) ∧
    (∀ ls, ensure_iterable (some (PyColnames.pylist ls)) d = ls) ∧
    (∀ ls, ensure_iterable (some (PyColnames.pyindex ls)) d = ls) :=
  ⟨fun _ => rfl, fun _ => rfl, fun _ => rfl, fun _ => rfl⟩

/-- C6: `value` raises a `ValueError` exactly when both `include` and
`exclude` are given (both non-`None`); with at most one of them given no
such error occurs and the index is set according to the chosen mode:
`include ++ INDEX_COLUMNS` in include mode, all columns minus the value
column minus the exclusions otherwise. -/
theorem value_include_exclude_spec (df : Table)
    (include_ exclude : Option (List String)) (idxCols : List String) :
    (value df include_ exclude idxCols = none
      ↔ include_.isSome ∧ exclude.isSome) ∧
    (∀ t, value df include_ exclude idxCols = some t →
      t.idCols =
        match include_ with
        | some inc => inc ++ idxCols
        | none => df.idCols.filter fun c => ¬ c ∈ exclude.getD []) := by
  constructor
  · cases include_ <;> cases exclude <;> simp [value]
  · intro t ht
    cases include_ with
    | none =>
      cases exclude with
      | none =>
        simp [value] at ht
        rw [← ht]
        simp
      | some e =>
        simp [value] at ht
        rw [← ht]
        simp
    | some inc =>
      cases exclude with
      | none =>
        simp [value] at ht
        rw [← ht]
      | some e => simp [value] at ht

/-- C6 witness: the specification instantiated at a concrete frame. -/
theorem value_include_exclude_spec_witness :
    (value sampleTable (some [causeCol]) (some [causeCol]) INDEX_COLUMNS
        = none ↔
      (some [causeCol] : Option (List String)).isSome ∧
      (some [causeCol] : Option (List String)).isSome) ∧
    (∀ t, value sampleTable (some [causeCol]) (some [causeCol]) INDEX_COLUMNS
        = some t →
      t.idCols =
        match (some [causeCol] : Option (List String)) with
        | some inc => inc ++ INDEX_COLUMNS
        | none => sampleTable.idCols.filter fun c =>
            ¬ c ∈ (some [causeCol] : Option (List String)).getD []) :=
  value_include_exclude_spec sampleTable (some [causeCol]) (some [causeCol])
    INDEX_COLUMNS

/-- C7: `ratio` raises a `ValueError` exactly when the normalized
numerator and denominator broadcast column lists share a column; with
disjoint broadcast lists (and nonempty group keys) the computation
proceeds without that error. -/
theorem ratio_broadcast_disjoint_spec (n d : Table) (strata : List String)
    (mult : ℚ) (nb db idxCols : List String) :
    ((∃ c ∈ nb, c ∈ db) → ratio n d strata mult nb db idxCols = none) ∧
    ((∀ c ∈ nb, ¬ c ∈ db) → ¬ (strata ++ nb) ++ idxCols = [] →
      ¬ (strata ++ db) ++ idxCols = [] →
      ( ratio n d strata mult nb db idxCols).isSome) := by
  constructor
  · rintro ⟨c, hcn, hcd⟩
    have hany : (nb.any fun c => c ∈ db) = true := by
      simp only [List.any_eq_true, decide_eq_true_eq]
      exact ⟨c, hcn, hcd⟩
    simp [ratio, hany]
  · intro hdisj h1 h2
    have hany : (nb.any fun c => c ∈ db) = false := by
      simp only [List.any_eq_false, decide_eq_true_eq]
      exact hdisj
    have h1' : ¬ (strata = [] ∧ nb = [] ∧ idxCols = []) := by
      simpa using h1
    have h2' : ¬ (strata = [] ∧ db = [] ∧ idxCols = []) := by
      simpa using h2
    simp [ratio, hany, stratify, groupbySum, h1', h2']

/-- C7 witness: the specification instantiated at concrete frames. -/
theorem ratio_broadcast_disjoint_spec_witness :
    ((∃ c ∈ [causeCol], c ∈ ([] : List String)) →
      ratio sampleTable baseTable [] 1 [causeCol] [] INDEX_COLUMNS = none) ∧
    ((∀ c ∈ [causeCol], ¬ c ∈ ([] : List String)) →
      ¬ (([] : List String) ++ [causeCol]) ++ INDEX_COLUMNS = [] →
      ¬ (([] : List String) ++ []) ++ INDEX_COLUMNS = [] →
      ( ratio sampleTable baseTable [] 1 [causeCol] [] INDEX_COLUMNS).isSome) :=
  ratio_broadcast_disjoint_spec sampleTable baseTable [] 1 [causeCol] []
    INDEX_COLUMNS

/-- C8: `difference` raises a `ValueError` exactly when both ids are
`None`; when only the minuend id is given no such error occurs and the
subtrahend defaults to all rows whose identifier value differs from the
given id, coinciding with the explicit two-id call whenever the
identifier column takes only the two values. -/
theorem difference_requires_id_spec (m : Table) (col : String) :
    (∀ mid sid : Option String,
      difference m col mid sid = none ↔ mid = none ∧ sid = none) ∧
    (∀ a b : String, ¬ a = b → (∀ q ∈ m.rows, q.1 col = a ∨ q.1 col = b) →
      difference m col (some a) none = difference m col (some a) (some b)) := by
  constructor
  · intro mid sid
    cases mid <;> cases sid <;> simp [difference]
  · intro a b hab hvals
    have hfil : (m.rows.filter fun p => !decide (p.1 col = a))
        = m.rows.filter fun p => decide (p.1 col = b) := by
      apply List.filter_congr
      intro q hq
      rcases hvals q hq with h | h
      · simp [h, hab]
      · have hba : ¬ b = a := fun hh => hab hh.symm
        simp [h, hba]
    simp [difference, hfil]

/-- C8 witness: the specification instantiated at a concrete frame. -/
theorem difference_requires_id_spec_witness :
    (∀ mid sid : Option String,
      difference baseTable SCENARIO_COLUMN mid sid = none
        ↔ mid = none ∧ sid = none) ∧
    (∀ a b : String, ¬ a = b →
      (∀ q ∈ baseTable.rows, q.1 SCENARIO_COLUMN = a ∨
        q.1 SCENARIO_COLUMN = b) →
      difference baseTable SCENARIO_COLUMN (some a) none
        = difference baseTable SCENARIO_COLUMN (some a) (some b)) :=
  difference_requires_id_spec baseTable SCENARIO_COLUMN

/-- C4: swapping the minuend and subtrahend ids negates the value
column on corresponding rows (rows aligned on all remaining identifier
columns; a missing value corresponds to a missing value), provided the
frame is uniquely keyed and does not already contain the inserted
provenance column. -/
theorem difference_swap_negates (m : Table) (col a b : String)
    (hU : (m.rows.map fun p =>
      keyOf (col :: indexColsOf m col) p.1).Nodup)
    (hAnn : ¬ subtractedFromCol ∈ m.idCols) :
    ∀ d1 ∈ difference m col (some a) (some b),
    ∀ d2 ∈ difference m col (some b) (some a),
    ∀ p1 ∈ d1.rows, ∀ p2 ∈ d2.rows,
      keyOf (indexColsOf m col) p1.1 = keyOf (indexColsOf m col) p2.1 →
      p1.2 = p2.2.map fun v => -v := by
  intro d1 hd1 d2 hd2 p1 hp1 p2 hp2 hkey
  have e1 : difference m col (some a) (some b) = some
      { idCols := indexColsOf m col ++ [col, subtractedFromCol],
        rows := diffCore (m.rows.filter fun p => p.1 col = b)
          (m.rows.filter fun p => p.1 col = a) (indexColsOf m col) col
          subtractedFromCol a fun v s => v - s } := rfl
  have e2 : difference m col (some b) (some a) = some
      { idCols := indexColsOf m col ++ [col, subtractedFromCol],
        rows := diffCore (m.rows.filter fun p => p.1 col = a)
          (m.rows.filter fun p => p.1 col = b) (indexColsOf m col) col
          subtractedFromCol b fun v s => v - s } := rfl
  rw [e1] at hd1
  rw [e2] at hd2
  obtain rfl := Option.mem_some_iff.mp hd1
  obtain rfl := Option.mem_some_iff.mp hd2
  have hp1' : p1 ∈ diffCore (m.rows.filter fun p => p.1 col = b)
      (m.rows.filter fun p => p.1 col = a) (indexColsOf m col) col
      subtractedFromCol a (fun v s => v - s) := hp1
  have hp2' : p2 ∈ diffCore (m.rows.filter fun p => p.1 col = a)
      (m.rows.filter fun p => p.1 col = b) (indexColsOf m col) col
      subtractedFromCol b (fun v s => v - s) := hp2
  unfold diffCore at hp1' hp2'
  have hcolidx : ¬ col ∈ indexColsOf m col := by
    intro hcol
    have h := (List.mem_filter.mp hcol).2
    simp at h
  have hannidx : ¬ subtractedFromCol ∈ indexColsOf m col := fun h =>
    hAnn (List.mem_filter.mp h).1
  have hinj : ∀ v : String,
      ∀ p ∈ (m.rows.filter fun p => p.1 col = v),
      ∀ q ∈ (m.rows.filter fun p => p.1 col = v),
      keyOf (indexColsOf m col) p.1 = keyOf (indexColsOf m col) q.1 →
      p = q := by
    intro v p hp q hq hk
    have hp' := List.mem_filter.mp hp
    have hq' := List.mem_filter.mp hq
    have hpv : p.1 col = v := by simpa using hp'.2
    have hqv : q.1 col = v := by simpa using hq'.2
    have hk' : List.map p.1 (indexColsOf m col)
        = List.map q.1 (indexColsOf m col) := hk
    apply List.inj_on_of_nodup_map hU hp'.1 hq'.1
    show List.map p.1 (col :: indexColsOf m col)
      = List.map q.1 (col :: indexColsOf m col)
    rw [List.map_cons, List.map_cons, hpv, hqv, hk']
  rcases List.mem_append.mp hp1' with hM1 | hU1
  · obtain ⟨s, hs, rfl⟩ := List.mem_map.mp hM1
    have key1 : keyOf (indexColsOf m col)
        (setCol s.1 subtractedFromCol a) = keyOf (indexColsOf m col) s.1 :=
      keyOf_setCol _ s.1 _ _ hannidx
    rcases List.mem_append.mp hp2' with hM2 | hU2
    · obtain ⟨t, ht, rfl⟩ := List.mem_map.mp hM2
      have key2 : keyOf (indexColsOf m col)
          (setCol t.1 subtractedFromCol b)
          = keyOf (indexColsOf m col) t.1 :=
        keyOf_setCol _ t.1 _ _ hannidx
      rw [key1, key2] at hkey
      show (lookupVal (m.rows.filter fun p => p.1 col = a)
          (indexColsOf m col) (keyOf (indexColsOf m col) s.1)).map
            (fun v => v - s.2)
        = ((lookupVal (m.rows.filter fun p => p.1 col = b)
          (indexColsOf m col) (keyOf (indexColsOf m col) t.1)).map
            (fun v => v - t.2)).map fun v => -v
      rw [hkey, lookupVal_of_mem _ _ (hinj a) t ht, ← hkey,
        lookupVal_of_mem _ _ (hinj b) s hs]
      simp only [Option.map_some', Option.some.injEq]
      ring
    · obtain ⟨u, hu, rfl⟩ := List.mem_map.mp hU2
      have hu' := List.mem_filter.mp hu
      have hnoneA : lookupVal (m.rows.filter fun p => p.1 col = a)
          (indexColsOf m col) (keyOf (indexColsOf m col) u.1) = none := by
        simpa [Option.isNone_iff_eq_none] using hu'.2
      have key2 : keyOf (indexColsOf m col)
          (setCol (setCol u.1 col missingLabel) subtractedFromCol b)
          = keyOf (indexColsOf m col) u.1 := by
        rw [keyOf_setCol _ _ _ _ hannidx, keyOf_setCol _ _ _ _ hcolidx]
      rw [key1, key2] at hkey
      show (lookupVal (m.rows.filter fun p => p.1 col = a)
          (indexColsOf m col) (keyOf (indexColsOf m col) s.1)).map
            (fun v => v - s.2) = (none : Option ℚ).map fun v => -v
      rw [hkey, hnoneA]
      rfl
  · obtain ⟨w, hw, rfl⟩ := List.mem_map.mp hU1
    have hw' := List.mem_filter.mp hw
    have hnoneB : lookupVal (m.rows.filter fun p => p.1 col = b)
        (indexColsOf m col) (keyOf (indexColsOf m col) w.1) = none := by
      simpa [Option.isNone_iff_eq_none] using hw'.2
    have key1 : keyOf (indexColsOf m col)
        (setCol (setCol w.1 col missingLabel) subtractedFromCol a)
        = keyOf (indexColsOf m col) w.1 := by
      rw [keyOf_setCol _ _ _ _ hannidx, keyOf_setCol _ _ _ _ hcolidx]
    rcases List.mem_append.mp hp2' with hM2 | hU2
    · obtain ⟨t, ht, rfl⟩ := List.mem_map.mp hM2
      have key2 : keyOf (indexColsOf m col)
          (setCol t.1 subtractedFromCol b)
          = keyOf (indexColsOf m col) t.1 :=
        keyOf_setCol _ t.1 _ _ hannidx
      rw [key1, key2] at hkey
      show (none : Option ℚ)
        = ((lookupVal (m.rows.filter fun p => p.1 col = b)
            (indexColsOf m col) (keyOf (indexColsOf m col) t.1)).map
              (fun v => v - t.2)).map fun v => -v
      rw [← hkey, hnoneB]
      rfl
    · obtain ⟨u, hu, rfl⟩ := List.mem_map.mp hU2
      have hu' := List.mem_filter.mp hu
      have hnoneA : lookupVal (m.rows.filter fun p => p.1 col = a)
          (indexColsOf m col) (keyOf (indexColsOf m col) u.1) = none := by
        simpa [Option.isNone_iff_eq_none] using hu'.2
      have key2 : keyOf (indexColsOf m col)
          (setCol (setCol u.1 col missingLabel) subtractedFromCol b)
          = keyOf (indexColsOf m col) u.1 := by
        rw [keyOf_setCol _ _ _ _ hannidx, keyOf_setCol _ _ _ _ hcolidx]
      rw [key1, key2] at hkey
      exfalso
      have hsome := lookupVal_of_mem (m.rows.filter fun p => p.1 col = a)
        (indexColsOf m col) (hinj a) w hw'.1
      rw [hkey, hnoneA] at hsome
      exact Option.noConfusion hsome

/-- C4 witness: the swap-negation property instantiated at a concrete
two-scenario frame. -/
theorem difference_swap_negates_witness :
    ((baseTable.rows.map fun p =>
      keyOf (SCENARIO_COLUMN :: indexColsOf baseTable SCENARIO_COLUMN)
        p.1).Nodup) ∧
    (¬ subtractedFromCol ∈ baseTable.idCols) ∧
    (∀ d1 ∈ difference baseTable SCENARIO_COLUMN (some baselineLabel)
        (some interventionLabel),
      ∀ d2 ∈ difference baseTable SCENARIO_COLUMN (some interventionLabel)
        (some baselineLabel),
      ∀ p1 ∈ d1.rows, ∀ p2 ∈ d2.rows,
        keyOf (indexColsOf baseTable SCENARIO_COLUMN) p1.1
          = keyOf (indexColsOf baseTable SCENARIO_COLUMN) p2.1 →
        p1.2 = p2.2.map fun v => -v) :=
  ⟨by decide, by decide,
    difference_swap_negates baseTable SCENARIO_COLUMN baselineLabel
      interventionLabel (by decide) (by decide)⟩

/-- C5 counterexample: on a frame whose only scenario is the baseline
(the same id plays the baseline and the intervention role), `averted`
returns one row per baseline row with a missing (`NaN`) value — the
subtrahend selection `scenario != baseline` is empty — not a value
column of zeros. -/
theorem averted_same_scenario_not_zero :
    ((averted baseOnlyTable baselineLabel none).map
      fun res => res.rows.map Prod.snd) = some [none] ∧
    ¬ (none : Option ℚ) = some 0 := by
  constructor
  · rfl
  · simp

/-- C5 amended: when the baseline id equals the intervention id (every
row of the frame is in the baseline scenario), `averted` yields a
result whose value column is entirely missing (`NaN`), because the
subtrahend selection — the rows with a different scenario — is empty;
it is not a column of zeros. -/
theorem averted_same_scenario_all_missing (m : Table) (b : String)
    (hall : ∀ p ∈ m.rows, p.1 SCENARIO_COLUMN = b) :
    ∀ res ∈ averted m b none, ∀ p ∈ res.rows, p.2 = none := by
  intro res hres p hp
  have e : averted m b none = some
      { idCols := indexColsOf m SCENARIO_COLUMN
          ++ [SCENARIO_COLUMN, subtractedFromCol],
        rows := diffCore
          (m.rows.filter fun p => ¬ p.1 SCENARIO_COLUMN = b)
          (m.rows.filter fun p => p.1 SCENARIO_COLUMN = b)
          (indexColsOf m SCENARIO_COLUMN) SCENARIO_COLUMN
          subtractedFromCol b fun v s => v - s } := rfl
  rw [e] at hres
  obtain rfl := Option.mem_some_iff.mp hres
  have hsub : (m.rows.filter fun p => ¬ p.1 SCENARIO_COLUMN = b)
      = [] := by
    rw [List.filter_eq_nil_iff]
    intro q hq
    simp [hall q hq]
  have hp2 : p ∈ diffCore
      (m.rows.filter fun p => ¬ p.1 SCENARIO_COLUMN = b)
      (m.rows.filter fun p => p.1 SCENARIO_COLUMN = b)
      (indexColsOf m SCENARIO_COLUMN) SCENARIO_COLUMN
      subtractedFromCol b (fun v s => v - s) := hp
  rw [hsub] at hp2
  unfold diffCore at hp2
  rcases List.mem_append.mp hp2 with h | h
  · simp at h
  · obtain ⟨q, hq, rfl⟩ := List.mem_map.mp h
    rfl

/-- C5 amended witness: the all-missing property instantiated at a
concrete baseline-only frame. -/
theorem averted_same_scenario_all_missing_witness :
    (∀ p ∈ baseOnlyTable.rows, p.1 SCENARIO_COLUMN = baselineLabel) ∧
    (∀ res ∈ averted baseOnlyTable baselineLabel none,
      ∀ p ∈ res.rows, p.2 = none) :=
  ⟨by decide,
    averted_same_scenario_all_missing baseOnlyTable baselineLabel
      (by decide)⟩

/-- C9 counterexample: excluding the value column itself does not make
it disappear — `value` with `exclude` naming it still returns the value
column as the data column, so an excluded column can appear in the
result. -/
theorem value_exclude_value_column_kept :
    ((value sampleTable none (some [VALUE_COLUMN]) INDEX_COLUMNS).map
      fun t => decide (∃ c ∈ [VALUE_COLUMN], c ∈ tableColumns t))
      = some true := by
  rfl

/-- C9 amended: for any `exclude` list avoiding the value column, the
result of `value(df, exclude=...)` contains the excluded columns
nowhere: its index is the columns of the table minus the value column
minus
the exclusions, and its only data column is the value column.  (When
`exclude` names the value column itself, that column is still returned
as the data column — see the counterexample.) -/
theorem value_exclude_drops_columns (df : Table) (excl idxCols : List String)
    (hv : ¬ VALUE_COLUMN ∈ excl) :
    ∀ t ∈ value df none (some excl) idxCols,
      (∀ c ∈ excl, ¬ c ∈ tableColumns t) ∧
      (∀ c, c ∈ t.idCols ↔ (c ∈ df.idCols ∧ ¬ c ∈ excl)) := by
  intro t ht
  have e : value df none (some excl) idxCols = some
      { idCols := df.idCols.filter fun c => ¬ c ∈ excl,
        rows := df.rows.map fun p =>
          (restrictRow (df.idCols.filter fun c => ¬ c ∈ excl) p.1, p.2) } :=
    rfl
  rw [e] at ht
  obtain rfl := Option.mem_some_iff.mp ht
  constructor
  · intro c hc hmem
    have hmem' : c ∈ (df.idCols.filter fun c => ¬ c ∈ excl)
        ++ [VALUE_COLUMN] := hmem
    rcases List.mem_append.mp hmem' with h | h
    · have h2 : ¬ c ∈ excl := by simpa using (List.mem_filter.mp h).2
      exact h2 hc
    · have h2 : c = VALUE_COLUMN := by simpa using h
      exact hv (h2 ▸ hc)
  · intro c
    constructor
    · intro h
      have h' := List.mem_filter.mp h
      exact ⟨h'.1, by simpa using h'.2⟩
    · rintro ⟨h1, h2⟩
      exact List.mem_filter.mpr ⟨h1, by simpa using h2⟩

/-- C9 amended witness: the exclusion property instantiated at a
concrete frame, excluding the cause column. -/
theorem value_exclude_drops_columns_witness :
    (¬ VALUE_COLUMN ∈ [causeCol]) ∧
    (∀ t ∈ value sampleTable none (some [causeCol]) INDEX_COLUMNS,
      (∀ c ∈ [causeCol], ¬ c ∈ tableColumns t) ∧
      (∀ c, c ∈ t.idCols ↔ (c ∈ sampleTable.idCols ∧ ¬ c ∈ [causeCol]))) :=
  ⟨by decide,
    value_exclude_drops_columns sampleTable [causeCol] INDEX_COLUMNS
      (by decide)⟩

end VivariumOutput
